import Mathlib

/-!
Verification development for the async-redis core: the RESP codec
(connection.py, RawConnection._encode_command), the reply conversion
(RawConnection._read_result), the execution core (RawConnection.execute,
RawConnection.execute_many, RawConnection.close), the buffered stream
(streams.py, RedisStreamReader) and the pipeline accumulator
(pipeline_commands.py, CommandsPipeline).

Bytes are modelled as List Nat (each entry a byte value). Machine strings
are Lean String. Python float objects are modelled symbolically by the text
that repr produces for them, since the claims never depend on numeric float
semantics. Fallible operations return Except or Option. The asyncio lock,
the writer and the wire are modelled by an explicit action trace and an
explicit stream of incoming reply bytes.
-/

namespace AsyncRedis

/-! ## Byte-level helpers -/

/-- The two-byte CRLF line terminator. -/
def CRLF : List Nat := [13, 10]

/-- ASCII bytes of a string whose characters are all below 256; used for
byte-string literals appearing in the Python source, such as b"OK". -/
def asciiBytes (s : String) : List Nat := s.data.map Char.toNat

/-- UTF-8 encoding of a string, byte by byte.  Models the Python
str.encode with the default utf8 codec. -/
def utf8Bytes (s : String) : List Nat :=
  s.data.flatMap (fun c => (String.utf8EncodeChar c).map UInt8.toNat)

/-- Fuel-driven UTF-8 decoder over byte lists.  Models the Python
bytes.decode with the utf8 codec; exact on well-formed UTF-8 input
(ill-formed continuation bytes are skipped, where Python would raise,
but no claim feeds ill-formed input to the decoder). -/
def utf8DecodeChars : Nat → List Nat → List Char
  | 0, _ => []
  | _, [] => []
  | f + 1, b :: rest =>
    if b < 128 then Char.ofNat b :: utf8DecodeChars f rest
    else if b < 192 then utf8DecodeChars f rest
    else if b < 224 then
      match rest with
      | b2 :: r => Char.ofNat ((b - 192) * 64 + (b2 - 128)) :: utf8DecodeChars f r
      | [] => []
    else if b < 240 then
      match rest with
      | b2 :: b3 :: r =>
        Char.ofNat ((b - 224) * 4096 + (b2 - 128) * 64 + (b3 - 128)) :: utf8DecodeChars f r
      | _ => []
    else
      match rest with
      | b2 :: b3 :: b4 :: r =>
        Char.ofNat ((b - 240) * 262144 + (b2 - 128) * 4096 + (b3 - 128) * 64 + (b4 - 128))
          :: utf8DecodeChars f r
      | _ => []

/-- UTF-8 decoding of a byte list into a string. -/
def utf8Decode (bs : List Nat) : String := ⟨utf8DecodeChars (bs.length + 1) bs⟩

/-- Fuel-driven conversion of a natural number to its ASCII decimal digits,
most significant first.  Models the b-percent-d formatting used by
_encode_command for the non-negative part of an integer. -/
def natDigitsAux : Nat → Nat → List Nat
  | 0, _ => []
  | fuel + 1, n => if n < 10 then [48 + n] else natDigitsAux fuel (n / 10) ++ [48 + n % 10]

/-- ASCII decimal digits of a natural number, most significant first. -/
def natDecimalDigits (n : Nat) : List Nat := natDigitsAux (n + 1) n

/-- ASCII decimal representation of an integer: a minus sign for negative
values followed by the digits of the absolute value.  Models the Python
formatting b-percent-d applied to an int (connection.py line 137). -/
def intDecimalBytes (i : Int) : List Nat :=
  if i < 0 then 45 :: natDecimalDigits i.natAbs else natDecimalDigits i.natAbs

/-- Value of one ASCII digit byte, if it is a digit. -/
def digitVal? (b : Nat) : Option Nat := if 48 ≤ b ∧ b ≤ 57 then some (b - 48) else none

/-- Parses a nonempty run of ASCII digits as a natural number. -/
def digitsToNat? (bs : List Nat) : Option Nat :=
  match bs with
  | [] => none
  | _ => bs.foldlM (fun acc b => (digitVal? b).map (fun d => acc * 10 + d)) 0

/-- Parses an optionally signed ASCII decimal integer.  Models both the
header-integer parsing inside the hiredis reader and the Python int
builtin applied to a clean byte string. -/
def parseIntBytes? (bs : List Nat) : Option Int :=
  match bs with
  | 45 :: rest => (digitsToNat? rest).map (fun n => -(n : Int))
  | 43 :: rest => (digitsToNat? rest).map (fun n => (n : Int))
  | _ => (digitsToNat? bs).map (fun n => (n : Int))

/-- Numeric value denoted by a list of ASCII digit bytes, most significant
first; used to state that natDecimalDigits really is the decimal
representation. -/
def digitsVal (bs : List Nat) : Nat := bs.foldl (fun acc b => acc * 10 + (b - 48)) 0

/-! ## Character encoding

The connection is configured with a character encoding name (the encoding
field of ConnectionSettings, default utf8).  The codec machinery itself is
the Python codec registry, an external collaborator; it is modelled as a
pair of total functions, with the utf8 pair as the concrete default. -/

/-- A character encoding as the connection sees it: string-to-bytes for
encoding command arguments, bytes-to-string for decoding replies. -/
structure Codec where
  encodeStr : String → List Nat
  decodeBytes : List Nat → String

/-- The default utf8 codec of ConnectionSettings. -/
def utf8Codec : Codec := ⟨utf8Bytes, utf8Decode⟩

/-! ## Reply values and the reply parser

The hiredis reader is an external C library: RawConnection keeps two
instances, hi_raw built with no encoding and hi_enc built with the
connection encoding, and installs one of them on the stream reader before
each call (connection.py lines 63 to 64 and 98 to 99).  Modelled from the
spec: the reader parses the RESP wire format of section 6 of the spec
(status, error, integer, bulk, array lines, CRLF terminated) and converts
it to Python values, decoding bulk and status payloads to text when an
encoding is configured and leaving them as bytes otherwise. -/

/-- A Python value as returned by the hiredis reader and by _read_result:
bytes, text, int, a symbolic float (carrying the literal text), a bool,
the Python value None, a list, or a ReplyError object carrying the error
line of a RESP error reply. -/
inductive PyValue where
  | bytes (b : List Nat)
  | str (s : String)
  | int (i : Int)
  | float (lit : String)
  | bool (b : Bool)
  | none
  | list (xs : List PyValue)
  | error (msg : List Nat)

/-- Which hiredis reader instance is installed: raw (no encoding, bulk and
status payloads stay bytes) or enc (payloads are decoded to text). -/
inductive ReaderMode where
  | raw
  | enc
deriving DecidableEq

/-- Materialisation of a bulk or status payload under the installed
reader mode. -/
def strOrBytes (codec : Codec) (mode : ReaderMode) (b : List Nat) : PyValue :=
  match mode with
  | .raw => .bytes b
  | .enc => .str (codec.decodeBytes b)

/-- Splits the first CRLF-terminated line off a byte list: returns the line
without its terminator together with the bytes after the terminator, or
none when no CRLF has arrived yet. -/
def splitCrlfLine : List Nat → Option (List Nat × List Nat)
  | [] => none
  | b :: rest =>
    if b = 13 then
      match rest with
      | 10 :: r => some ([], r)
      | _ => (splitCrlfLine rest).map (fun p => (b :: p.1, p.2))
    else (splitCrlfLine rest).map (fun p => (b :: p.1, p.2))

/-- Takes a bulk payload of the given length followed by CRLF off the front
of a byte list, or none when not enough bytes have arrived. -/
def takeBulk (codec : Codec) (mode : ReaderMode) (len : Nat) (bs : List Nat) :
    Option (PyValue × List Nat) :=
  if len + 2 ≤ bs.length ∧ (bs.drop len).take 2 = CRLF then
    some (strOrBytes codec mode (bs.take len), bs.drop (len + 2))
  else none

/-- Parses a fixed count of consecutive RESP replies off the front of a byte
list, returning the parsed values and the unconsumed rest, or none when the
buffered bytes do not yet hold that many complete replies.  The fuel
argument only bounds nesting and repetition; every call site supplies more
fuel than the buffer length, which is always sufficient because each parsed
reply consumes at least one byte.  Reply kinds are distinguished by their
one-byte type prefix: 43 is the plus sign (status), 45 the minus sign
(error), 58 the colon (integer), 36 the dollar sign (bulk, length -1
denoting the Python value None), 42 the star (array, count -1 denoting the
Python value None). -/
def parseCount (codec : Codec) (mode : ReaderMode) : Nat → Nat → List Nat →
    Option (List PyValue × List Nat)
  | _, 0, bs => some ([], bs)
  | 0, _ + 1, _ => none
  | fuel + 1, k + 1, bs =>
    (match bs with
     | [] => none
     | t :: rest =>
       if t = 43 then
         (splitCrlfLine rest).map fun p => (strOrBytes codec mode p.1, p.2)
       else if t = 45 then
         (splitCrlfLine rest).map fun p => (PyValue.error p.1, p.2)
       else if t = 58 then
         (splitCrlfLine rest).bind fun p =>
           (parseIntBytes? p.1).map fun i => (PyValue.int i, p.2)
       else if t = 36 then
         (splitCrlfLine rest).bind fun p =>
           (parseIntBytes? p.1).bind fun n =>
             if n < 0 then some (PyValue.none, p.2)
             else takeBulk codec mode n.toNat p.2
       else if t = 42 then
         (splitCrlfLine rest).bind fun p =>
           (parseIntBytes? p.1).bind fun n =>
             if n < 0 then some (PyValue.none, p.2)
             else (parseCount codec mode fuel n.toNat p.2).map fun q =>
               (PyValue.list q.1, q.2)
       else none
     : Option (PyValue × List Nat)).bind fun p =>
      (parseCount codec mode fuel k p.2).map fun q => (p.1 :: q.1, q.2)

/-- One call of the hiredis gets method on the bytes buffered so far:
either one complete materialised reply and the unconsumed rest, or none
when the buffer does not yet hold a complete reply. -/
def hiGets (codec : Codec) (mode : ReaderMode) (buffer : List Nat) :
    Option (PyValue × List Nat) :=
  match parseCount codec mode (buffer.length + 1) 1 buffer with
  | some ([v], rest) => some (v, rest)
  | _ => none

/-- Parses a sequence of n consecutive replies by repeated hiGets calls,
exactly as n consecutive reads from the stream would. -/
def parseSeq (codec : Codec) (mode : ReaderMode) : Nat → List Nat →
    Option (List PyValue × List Nat)
  | 0, bs => some ([], bs)
  | n + 1, bs =>
    (hiGets codec mode bs).bind fun p =>
      (parseSeq codec mode n p.2).map fun q => (p.1 :: q.1, q.2)

/-! ## The buffered stream (streams.py)

RedisStreamReader keeps the raw bytes inside the hiredis reader object; the
byte count reported by the len method of that object is the backpressure
signal.  The two hiredis instances of the connection are modelled as one
buffer plus the installed mode, which is faithful for every scenario the
claims quantify over, since each call installs one reader before doing any
read.  The transport is modelled by two flags: whether a transport is
attached (the _transport attribute is not None) and whether its
pause_reading method is implemented (feed_data drops the transport on
NotImplementedError, streams.py lines 58 to 62). -/

/-- The default limit constant of streams.py line 10: 2 to the 16, 64 KiB. -/
def _DEFAULT_LIMIT : Nat := 2 ^ 16

/-- State of the modified asyncio stream reader of streams.py. -/
structure RedisStreamReader where
  limit : Nat
  buffer : List Nat
  eof : Bool
  paused : Bool
  transport : Bool
  canPause : Bool
deriving DecidableEq

/-- The feed_data method (streams.py lines 46 to 64): appends the chunk to
the hiredis buffer, then, when a transport is attached, reading is not
already paused and the buffered byte count exceeds twice the limit, pauses
the transport read side; when the transport does not implement pausing, the
transport reference is dropped instead.  The assertion that no data arrives
after EOF is recorded as a hypothesis of the theorems that use feed_data. -/
def feed_data (st : RedisStreamReader) (data : List Nat) : RedisStreamReader :=
  if data = [] then st
  else
    let st1 := { st with buffer := st.buffer ++ data }
    if st1.transport = true ∧ st1.paused = false ∧ st1.buffer.length > 2 * st1.limit then
      if st1.canPause then { st1 with paused := true } else { st1 with transport := false }
    else st1

/-- The _maybe_resume_transport method (streams.py lines 86 to 89): when
paused and the buffered byte count has drained to at most the limit,
resumes the transport read side. -/
def _maybe_resume_transport (st : RedisStreamReader) : RedisStreamReader :=
  if st.paused = true ∧ st.buffer.length ≤ st.limit then { st with paused := false } else st

/-- Outcome of one pass of the read_redis loop body: a parsed reply with
the successor state, the EOF failure raising IncompleteReadError, or a
suspension waiting for more data. -/
inductive ReadOutcome where
  | got (v : PyValue) (st : RedisStreamReader)
  | eofErr (st : RedisStreamReader)
  | waiting (st : RedisStreamReader)

/-- One pass of the read_redis loop body (streams.py lines 66 to 84): a
gets call on the hiredis reader; on a complete reply the buffer advances
and _maybe_resume_transport runs; otherwise, at EOF the hiredis reader is
replaced by a fresh one (discarding all partial parse state) and
IncompleteReadError is raised, and when not at EOF the coroutine suspends
in _wait_for_data. -/
def read_redis_step (codec : Codec) (mode : ReaderMode) (st : RedisStreamReader) :
    ReadOutcome :=
  match hiGets codec mode st.buffer with
  | some (v, rest) => .got v (_maybe_resume_transport { st with buffer := rest })
  | none =>
    if st.eof then .eofErr { st with buffer := [] } else .waiting st

/-! ## The connection (connection.py) -/

/-- A command argument as accepted by _encode_command.  The isinstance
cascade of connection.py lines 131 to 145 distinguishes bytes, str, int,
float and bytearray; every other object falls through to the TypeError
branch and is modelled by the other constructor carrying the repr text and
the class name that the error message interpolates.  A float argument is
symbolic: it carries the text that the Python f-string formatting produces
for it, which is the shortest round-trippable decimal representation. -/
inductive ArgType where
  | bytes (b : List Nat)
  | str (s : String)
  | int (i : Int)
  | float (lit : String)
  | bytearray (b : List Nat)
  | other (reprStr : String) (typeName : String)
deriving DecidableEq

/-- Whether an argument is of one of the supported kinds. -/
def argSupported : ArgType → Bool
  | .other _ _ => false
  | _ => true

/-- Exceptions the modelled code can raise.  typeError models the TypeError
of _encode_command (the spec calls it EncodingError) carrying the repr and
the class name of the offending argument; unexpectedReply models the
RuntimeError of _read_result on an ok-tagged mismatch (the spec calls it
UnexpectedReplyError) carrying the actual reply received; convError models
ValueError or TypeError inside the int, float or bool builtin;
notIterable models the TypeError of iterating a non-list reply in
_read_result; connectionLost models the ConnectionResetError that the
asyncio drain call raises once the transport is closed; incompleteReply
models the IncompleteReadError of read_redis at EOF (the spec calls it
IncompleteReplyError). -/
inductive Err where
  | typeError (reprStr : String) (typeName : String)
  | unexpectedReply (actual : PyValue)
  | convError
  | notIterable
  | connectionLost
  | incompleteReply

/-- Conversion of one argument to its payload bytes, following the
isinstance cascade of _encode_command: bytes and bytearray pass through,
str is encoded with the connection encoding, int is formatted in decimal,
float is formatted by the f-string (its symbolic literal) and encoded as
ASCII, anything else raises the TypeError naming the value and its type. -/
def argBytes (codec : Codec) : ArgType → Except Err (List Nat)
  | .bytes b => .ok b
  | .str s => .ok (codec.encodeStr s)
  | .int i => .ok (intDecimalBytes i)
  | .float lit => .ok (asciiBytes lit)
  | .bytearray b => .ok (bytes b)
  | .other r t => .error (.typeError r t)
where
  /-- The bytes constructor applied to a bytearray payload (connection.py
  line 141). -/
  bytes (b : List Nat) : List Nat := b

/-- The per-argument loop of _encode_command: each argument is appended as
a length-prefixed blob, dollar sign, payload length in decimal, CRLF,
payload, CRLF; the first unsupported argument raises. -/
def encodeArgsLoop (codec : Codec) : List ArgType → Except Err (List Nat)
  | [] => .ok []
  | a :: rest =>
    match argBytes codec a with
    | .error e => .error e
    | .ok b =>
      (encodeArgsLoop codec rest).map
        (fun bs => 36 :: natDecimalDigits b.length ++ CRLF ++ b ++ CRLF ++ bs)

/-- The _encode_command method (connection.py lines 123 to 146): the
array-length header, star sign then the argument count in decimal then
CRLF, followed by each argument as a length-prefixed blob. -/
def _encode_command (codec : Codec) (args : List ArgType) : Except Err (List Nat) :=
  (encodeArgsLoop codec args).map
    (fun body => 42 :: natDecimalDigits args.length ++ CRLF ++ body)

/-- The decode tag of a call: the Python None tag is Option.none.  The
string literals of the ReturnAs type are the five tags used by
connection.py. -/
inductive ReturnAsTag where
  | ok
  | str
  | int
  | float
  | bool
deriving DecidableEq

/-- ReturnAs, including the Python None default. -/
abbrev ReturnAs := Option ReturnAsTag

/-- Python truthiness, used by the bool builtin in the conversion table. -/
def pyTruthy : PyValue → Bool
  | .bytes b => !b.isEmpty
  | .str s => !s.isEmpty
  | .int i => decide (i ≠ 0)
  | .float lit => decide (lit ≠ "0.0" ∧ lit ≠ "-0.0")
  | .bool b => b
  | .none => false
  | .list xs => !xs.isEmpty
  | .error _ => true

/-- The conversion functions of the return_as_lookup table (connection.py
lines 42 to 46): the Python builtins int, float and bool applied to one
reply element.  int parses a clean decimal byte or text string; float is
symbolic, wrapping the source text of the element; bool is truthiness.
Elements no builtin accepts raise, modelled by convError. -/
def applyConv : ReturnAsTag → PyValue → Except Err PyValue
  | .int, .bytes b =>
    match parseIntBytes? b with
    | some i => .ok (.int i)
    | none => .error .convError
  | .int, .str s =>
    match parseIntBytes? (asciiBytes s) with
    | some i => .ok (.int i)
    | none => .error .convError
  | .int, .int i => .ok (.int i)
  | .int, .bool b => .ok (.int (if b then 1 else 0))
  | .int, _ => .error .convError
  | .float, .bytes b => .ok (.float (⟨b.map Char.ofNat⟩ : String))
  | .float, .str s => .ok (.float s)
  | .float, .int i => .ok (.float (toString i))
  | .float, .float lit => .ok (.float lit)
  | .float, _ => .error .convError
  | .bool, v => .ok (.bool (pyTruthy v))
  | .ok, _ => .error .convError
  | .str, _ => .error .convError

/-- Python equality of a reply value against a bytes literal, as in the
comparison of _read_result line 107: only an equal bytes object compares
equal; every other value, including a ReplyError object, compares
unequal. -/
def eqPyBytes (v : PyValue) (e : List Nat) : Bool :=
  match v with
  | .bytes b => b == e
  | _ => false

/-- The tag dispatch of _read_result (connection.py lines 104 to 117) on a
reply value already read from the stream: tags None and str return the
value as is; tag ok returns None when the value equals the expected status
bytes and raises the RuntimeError carrying the actual value otherwise; the
remaining tags look up the builtin and apply it to a bytes reply directly
or to a list reply element-wise (iterating any other reply raises a
TypeError in Python, modelled by notIterable). -/
def readResultConv (tag : ReturnAs) (expectedOk : List Nat) (result : PyValue) :
    Except Err PyValue :=
  match tag with
  | Option.none => .ok result
  | some .str => .ok result
  | some .ok =>
    if eqPyBytes result expectedOk then .ok .none
    else .error (.unexpectedReply result)
  | some .int => applyElementWise .int result
  | some .float => applyElementWise .float result
  | some .bool => applyElementWise .bool result
where
  /-- Applies a lookup-table builtin to a bytes reply, or element-wise to a
  list reply. -/
  applyElementWise (t : ReturnAsTag) (result : PyValue) : Except Err PyValue :=
    match result with
    | .bytes b => applyConv t (.bytes b)
    | .list xs => (xs.mapM (applyConv t)).map .list
    | _ => .error .notIterable

/-- The expected success status default_ok_msg (connection.py line 41),
the byte string OK. -/
def default_ok_msg : List Nat := [79, 75]

/-- State of a RawConnection: the configured codec, the expected ok status
bytes, which hiredis reader instance is currently installed on the stream
reader, and whether close has completed on the transport. -/
structure RawConnection where
  codec : Codec
  expected_ok_msg : List Nat
  mode : ReaderMode
  closed : Bool

/-- The _set_reader_encoding method (connection.py lines 98 to 99):
installs the encoding-aware hiredis reader exactly for the str tag and the
raw reader for every other tag. -/
def _set_reader_encoding (c : RawConnection) (tag : ReturnAs) : RawConnection :=
  { c with mode := if tag = some .str then .enc else .raw }

/-- The _read_result method (connection.py lines 101 to 117) against the
pending stream bytes: one read_redis call on the installed reader, then
the tag dispatch.  The stream argument holds every byte the peer will send
before EOF, so an incomplete reply at the front is the EOF failure of
read_redis, which also discards the buffered partial state. -/
def _read_result (c : RawConnection) (tag : ReturnAs) (stream : List Nat) :
    Except Err PyValue × List Nat :=
  match hiGets c.codec c.mode stream with
  | Option.none => (.error .incompleteReply, [])
  | some (v, rest) => (readResultConv tag c.expected_ok_msg v, rest)

/-- One observable interaction of a call with the lock and the transport:
acquiring the mutual-exclusion gate, one writer.write of a byte buffer, or
one drain.  A write on a closed transport is discarded by asyncio but still
appears in the trace; the drain on a closed transport raises. -/
inductive WireAction where
  | acquireLock
  | write (buf : List Nat)
  | drain
deriving DecidableEq

/-- Result of an execute or execute_many call: the returned value or the
exception raised, the connection state afterwards, the trace of lock and
transport interactions, and the reply bytes left unconsumed on the
stream. -/
structure ExecResult (α : Type) where
  result : Except Err α
  conn : RawConnection
  actions : List WireAction
  stream : List Nat

/-- The execute method (connection.py lines 67 to 75): encode the command
into a fresh local buffer (raising before anything else happens on a bad
argument), install the reader for the tag, then under the lock write the
buffer, drain (which raises ConnectionResetError when the transport has
been closed) and read one result. -/
def execute (c : RawConnection) (args : List ArgType) (tag : ReturnAs)
    (stream : List Nat) : ExecResult PyValue :=
  match _encode_command c.codec args with
  | .error e => ⟨.error e, c, [], stream⟩
  | .ok buf =>
    let c1 := _set_reader_encoding c tag
    let acts : List WireAction := [.acquireLock, .write buf, .drain]
    if c1.closed then ⟨.error .connectionLost, c1, acts, stream⟩
    else
      let r := _read_result c1 tag stream
      ⟨r.1, c1, acts, r.2⟩

/-- The reply-reading list comprehension of execute_many (connection.py
line 88): n sequential _read_result calls; the first exception propagates
at once, leaving the later replies unread on the stream. -/
def readLoop (c : RawConnection) (tag : ReturnAs) :
    Nat → List Nat → Except Err (List PyValue) × List Nat
  | 0, stream => (.ok [], stream)
  | n + 1, stream =>
    match _read_result c tag stream with
    | (.error e, rest) => (.error e, rest)
    | (.ok v, rest) =>
      match readLoop c tag n rest with
      | (.error e, rest') => (.error e, rest')
      | (.ok vs, rest') => (.ok (v :: vs), rest')

/-- The execute_many method (connection.py lines 77 to 88): every command
is encoded into one shared buffer (the first bad argument raises before
the lock is touched), the reader encoding is installed with the literal
None rather than the tag of the call (connection.py line 82), then under
the lock the whole buffer is written once, drained once, and one result is
read per command with the tag of the call. -/
def execute_many (c : RawConnection) (cmds : List (List ArgType)) (tag : ReturnAs)
    (stream : List Nat) : ExecResult (List PyValue) :=
  match cmds.mapM (_encode_command c.codec) with
  | .error e => ⟨.error e, c, [], stream⟩
  | .ok bufs =>
    let c1 := _set_reader_encoding c Option.none
    let acts : List WireAction := [.acquireLock, .write bufs.flatten, .drain]
    if c1.closed then ⟨.error .connectionLost, c1, acts, stream⟩
    else
      let r := readLoop c1 tag cmds.length stream
      ⟨r.1, c1, acts, r.2⟩

/-- The close method (connection.py lines 90 to 93): under the lock, the
transport is closed and awaited closed.  No other connection state is
touched; in particular no closed-connection flag guards later calls. -/
def close (c : RawConnection) : RawConnection := { c with closed := true }

/-! ## The pipeline accumulator (pipeline_commands.py) -/

/-- State of a CommandsPipeline: the ordered list of recorded command
argument lists. -/
structure CommandsPipeline where
  pipeline : List (List ArgType)

/-- The recording _execute method of CommandsPipeline (lines 17 to 18):
appends the argument list without transmitting anything. -/
def pipeline_record (p : CommandsPipeline) (args : List ArgType) : CommandsPipeline :=
  ⟨p.pipeline ++ [args]⟩

/-- Result of a pipeline flush: the returned values or the exception, the
pipeline state afterwards, the trace of lock and transport interactions,
and the unconsumed stream bytes. -/
structure PipeResult where
  result : Except Err (List PyValue)
  pipe : CommandsPipeline
  actions : List WireAction
  stream : List Nat

/-- The execute method of CommandsPipeline (lines 20 to 25): an empty
recorded list short-circuits to an empty result without touching the
connection; otherwise one execute_many call is made, and only after it
returns successfully is the recorded list replaced by a fresh empty one,
so an exception leaves the recorded list unchanged. -/
def pipeline_execute (c : RawConnection) (p : CommandsPipeline) (tag : ReturnAs)
    (stream : List Nat) : PipeResult :=
  if p.pipeline = [] then ⟨.ok [], p, [], stream⟩
  else
    let er := execute_many c p.pipeline tag stream
    match er.result with
    | .ok vs => ⟨.ok vs, ⟨[]⟩, er.actions, er.stream⟩
    | .error e => ⟨.error e, p, er.actions, er.stream⟩

/-! ## Spec-side encoder

Written from the words of section 4.1 of the spec, for comparison with the
translation of _encode_command: the array-length header star N CRLF, then
each argument as a length-prefixed blob, dollar, byte length, CRLF, the
payload bytes, CRLF, with the type-to-bytes conversion table of the spec. -/

/-- Type-to-bytes conversion per the spec: a binary blob as is, a text
string through the configured character encoding, an integer as decimal
ASCII, a float as its shortest round-trippable decimal representation
(the symbolic literal of the argument).  The unsupported case is never
reached under the supported-arguments hypothesis. -/
def specArgBytes (codec : Codec) : ArgType → List Nat
  | .bytes b => b
  | .str s => codec.encodeStr s
  | .int i => intDecimalBytes i
  | .float lit => asciiBytes lit
  | .bytearray b => b
  | .other _ _ => []

/-- The request frame as the spec describes it. -/
def encodeSpec (codec : Codec) (args : List ArgType) : List Nat :=
  asciiBytes "*" ++ natDecimalDigits args.length ++ CRLF
    ++ args.flatMap (fun a =>
      asciiBytes "$" ++ natDecimalDigits (specArgBytes codec a).length ++ CRLF
        ++ specArgBytes codec a ++ CRLF)

/-! ## Concrete fixtures used by witnesses and counterexamples -/

/-- A fresh open connection with the default utf8 codec, the default
expected ok status and the raw reader installed. -/
def mkConn : RawConnection := ⟨utf8Codec, default_ok_msg, .raw, false⟩

/-- The one-argument PING command. -/
def pingCmd : List ArgType := [.bytes (asciiBytes "PING")]

/-! ## Helper lemmas -/

theorem natDigitsAux_irrel : ∀ (f f' n : Nat), n < f → n < f' →
    natDigitsAux f n = natDigitsAux f' n := by
  intro f
  induction f with
  | zero => intro f' n h _; omega
  | succ f ih =>
    intro f' n h h'
    cases f' with
    | zero => omega
    | succ f'' =>
      simp only [natDigitsAux]
      by_cases h10 : n < 10
      · simp [h10]
      · have hdiv : n / 10 < n := Nat.div_lt_self (by omega) (by norm_num)
        simp only [h10, if_false]
        rw [ih f'' (n / 10) (by omega) (by omega)]

theorem natDecimalDigits_eq (n : Nat) :
    natDecimalDigits n =
      if n < 10 then [48 + n] else natDecimalDigits (n / 10) ++ [48 + n % 10] := by
  by_cases h : n < 10
  · simp [natDecimalDigits, natDigitsAux, h]
  · have hdiv : n / 10 < n := Nat.div_lt_self (by omega) (by norm_num)
    have h1 : natDecimalDigits n = natDigitsAux n (n / 10) ++ [48 + n % 10] := by
      simp only [natDecimalDigits, natDigitsAux, h, if_false]
    rw [h1, natDigitsAux_irrel n (n / 10 + 1) (n / 10) (by omega) (by omega)]
    simp only [h, if_false]
    rfl

theorem natDecimalDigits_ne_nil (n : Nat) : natDecimalDigits n ≠ [] := by
  rw [natDecimalDigits_eq]
  by_cases h : n < 10 <;> simp [h]

theorem digitsVal_append_one (xs : List Nat) (b : Nat) :
    digitsVal (xs ++ [b]) = 10 * digitsVal xs + (b - 48) := by
  simp [digitsVal, List.foldl_append]
  ring

theorem digitsVal_natDecimalDigits (n : Nat) : digitsVal (natDecimalDigits n) = n := by
  induction n using Nat.strong_induction_on with
  | _ n ih =>
    rw [natDecimalDigits_eq]
    by_cases h : n < 10
    · simp [h, digitsVal]
    · have hdiv : n / 10 < n := Nat.div_lt_self (by omega) (by norm_num)
      simp only [h, if_false]
      rw [digitsVal_append_one, ih (n / 10) hdiv]
      omega

theorem natDecimalDigits_digits (n : Nat) :
    ∀ b ∈ natDecimalDigits n, 48 ≤ b ∧ b ≤ 57 := by
  induction n using Nat.strong_induction_on with
  | _ n ih =>
    rw [natDecimalDigits_eq]
    by_cases h : n < 10
    · simp [h]; omega
    · have hdiv : n / 10 < n := Nat.div_lt_self (by omega) (by norm_num)
      simp only [h, if_false]
      intro b hb
      rcases List.mem_append.mp hb with hb' | hb'
      · exact ih (n / 10) hdiv b hb'
      · have : b = 48 + n % 10 := List.mem_singleton.mp hb'
        omega

theorem natDecimalDigits_no_leading_zero (n : Nat) (h : n ≠ 0) :
    (natDecimalDigits n).head? ≠ some 48 := by
  induction n using Nat.strong_induction_on with
  | _ n ih =>
    rw [natDecimalDigits_eq]
    by_cases h10 : n < 10
    · simp [h10]
      omega
    · have hdiv : n / 10 < n := Nat.div_lt_self (by omega) (by norm_num)
      simp only [h10, if_false]
      have hne := natDecimalDigits_ne_nil (n / 10)
      obtain ⟨a, t, ht⟩ := List.exists_cons_of_ne_nil hne
      rw [ht, List.cons_append, List.head?_cons]
      have := ih (n / 10) hdiv (by omega)
      rw [ht, List.head?_cons] at this
      exact this

theorem splitCrlfLine_append (s r : List Nat) (h : 13 ∉ s) :
    splitCrlfLine (s ++ 13 :: 10 :: r) = some (s, r) := by
  induction s with
  | nil => rfl
  | cons b t ih =>
    have hb : b ≠ 13 := fun hb => h (hb ▸ List.mem_cons_self b t)
    have ht : 13 ∉ t := fun hm => h (List.mem_cons_of_mem b hm)
    simp only [List.cons_append, splitCrlfLine, hb, if_false, List.append_eq]
    rw [ih ht]
    rfl

theorem hiGets_status (codec : Codec) (mode : ReaderMode) (s : List Nat) (h : 13 ∉ s) :
    hiGets codec mode (43 :: s ++ CRLF) = some (strOrBytes codec mode s, []) := by
  have hsplit := splitCrlfLine_append s [] h
  simp only [hiGets, List.length_cons, List.length_append, CRLF, List.length_cons,
    List.length_nil, parseCount]
  simp only [CRLF] at hsplit ⊢
  simp [hsplit, parseCount]

theorem hiGets_error (codec : Codec) (mode : ReaderMode) (s : List Nat) (h : 13 ∉ s) :
    hiGets codec mode (45 :: s ++ CRLF) = some (.error s, []) := by
  have hsplit := splitCrlfLine_append s [] h
  simp only [hiGets, List.length_cons, List.length_append, CRLF, List.length_cons,
    List.length_nil, parseCount]
  simp only [CRLF] at hsplit ⊢
  simp [hsplit, parseCount]

theorem encodeArgsLoop_eq_spec (codec : Codec) :
    ∀ (args : List ArgType), args.all argSupported = true →
      encodeArgsLoop codec args = .ok (args.flatMap (fun a =>
        asciiBytes "$" ++ natDecimalDigits (specArgBytes codec a).length ++ CRLF
          ++ specArgBytes codec a ++ CRLF)) := by
  intro args
  induction args with
  | nil => intro _; rfl
  | cons a rest ih =>
    intro h
    rw [List.all_cons, Bool.and_eq_true] at h
    obtain ⟨ha, hrest⟩ := h
    have hb : argBytes codec a = .ok (specArgBytes codec a) := by
      cases a <;> simp [argBytes, argBytes.bytes, specArgBytes, argSupported] at ha ⊢
    rw [encodeArgsLoop, hb, ih hrest]
    have hd : asciiBytes "$" = [36] := rfl
    simp [Except.map, hd, List.flatMap_cons, List.append_assoc]

theorem encodeArgsLoop_error_first (codec : Codec) :
    ∀ (pre : List ArgType) (r t : String) (post : List ArgType),
      pre.all argSupported = true →
      encodeArgsLoop codec (pre ++ .other r t :: post) = .error (.typeError r t) := by
  intro pre
  induction pre with
  | nil => intro r t post _; rfl
  | cons a rest ih =>
    intro r t post h
    rw [List.all_cons, Bool.and_eq_true] at h
    obtain ⟨ha, hrest⟩ := h
    have hb : ∃ b, argBytes codec a = .ok b := by
      cases a <;> simp [argBytes, argBytes.bytes, argSupported] at ha ⊢
    obtain ⟨b, hb⟩ := hb
    rw [List.cons_append, encodeArgsLoop, hb, ih r t post hrest]
    rfl

theorem encodeArgsLoop_error_unsupported (codec : Codec) :
    ∀ (args : List ArgType), args.all argSupported = false →
      ∃ e, encodeArgsLoop codec args = .error e := by
  intro args
  induction args with
  | nil => intro h; simp at h
  | cons a rest ih =>
    intro h
    rw [List.all_cons, Bool.and_eq_false_iff] at h
    rcases h with ha | hrest
    · cases a <;> simp [argSupported] at ha
      case other r t => exact ⟨.typeError r t, rfl⟩
    · cases hb : argBytes codec a with
      | error e => exact ⟨e, by rw [encodeArgsLoop, hb]⟩
      | ok b =>
        obtain ⟨e, he⟩ := ih hrest
        exact ⟨e, by rw [encodeArgsLoop, hb, he]; rfl⟩

theorem readLoop_ok_decomp (c : RawConnection) (tag : ReturnAs) :
    ∀ (n : Nat) (stream : List Nat) (vs : List PyValue) (rest : List Nat),
      readLoop c tag n stream = (.ok vs, rest) →
      ∃ rvs, parseSeq c.codec c.mode n stream = some (rvs, rest)
        ∧ rvs.mapM (readResultConv tag c.expected_ok_msg) = .ok vs
        ∧ vs.length = n := by
  intro n
  induction n with
  | zero =>
    intro stream vs rest h
    rw [readLoop] at h
    injection h with h1 h2
    injection h1 with h1
    refine ⟨[], ?_, ?_, ?_⟩
    · rw [← h2]; rfl
    · rw [← h1]; rfl
    · rw [← h1]; rfl
  | succ n ih =>
    intro stream vs rest h
    rw [readLoop] at h
    cases hg : hiGets c.codec c.mode stream with
    | none =>
      have hrr : _read_result c tag stream = (.error .incompleteReply, []) := by
        simp only [_read_result, hg]
      rw [hrr] at h
      simp at h
    | some p =>
      obtain ⟨v0, rest0⟩ := p
      have hrr : _read_result c tag stream = (readResultConv tag c.expected_ok_msg v0, rest0) := by
        simp only [_read_result, hg]
      rw [hrr] at h
      cases hc : readResultConv tag c.expected_ok_msg v0 with
      | error e =>
        rw [hc] at h
        simp at h
      | ok v =>
        rw [hc] at h
        simp only [] at h
        cases hr : readLoop c tag n rest0 with
        | mk r1 r2 =>
          rw [hr] at h
          cases r1 with
          | error e => simp at h
          | ok vs' =>
            simp only [Prod.mk.injEq] at h
            obtain ⟨h1, h2⟩ := h
            injection h1 with h1
            obtain ⟨rvs, hp, hm, hl⟩ := ih rest0 vs' r2 hr
            refine ⟨v0 :: rvs, ?_, ?_, ?_⟩
            · simp [parseSeq, hg, hp, h2]
            · rw [List.mapM_cons, hc, hm, ← h1]
              rfl
            · simp [← h1, hl]

/-! ## Claim theorems -/

/-- The five-PING batch against the wire bytes used to exhibit the
execute_many error behaviour: reply 2 of 5 is a server error. -/
def wireC1 : List Nat := asciiBytes "+OK\r\n-ERR boom\r\n+OK\r\n+OK\r\n+OK\r\n"

/-- C1: evaluation of execute_many at the failing input.  Five commands
with decode tag ok against replies OK, ERR boom, OK, OK, OK: the call
raises the unexpected-reply error for item 2 immediately, and the three
replies for items 3, 4 and 5 are left unread on the stream, contradicting
the claim that the error check is deferred until all five replies have
been read and that items 1, 3, 4 and 5 are each resolved to their own
values.  The TODO comments at connection.py lines 87 and 108 state the
deferred behaviour as the intent, so this is a defect of the code, not of
the claim. -/
theorem execute_many_stops_at_first_bad_reply :
    (execute_many mkConn [pingCmd, pingCmd, pingCmd, pingCmd, pingCmd] (some .ok)
        wireC1).result
      = .error (.unexpectedReply (.error (asciiBytes "ERR boom")))
    ∧ (execute_many mkConn [pingCmd, pingCmd, pingCmd, pingCmd, pingCmd] (some .ok)
        wireC1).stream
      = asciiBytes "+OK\r\n+OK\r\n+OK\r\n"
    ∧ asciiBytes "+OK\r\n+OK\r\n+OK\r\n" ≠ ([] : List Nat) :=
  ⟨rfl, rfl, by decide⟩

/-- C2 counterexample: with decode tag str, execute_many returns raw bytes
where execute returns text, because execute_many installs the reader with
the literal None (connection.py line 82) while execute installs it with
the tag of the call (line 70); so the claim that every reply is decoded
with the same tag in the same way execute would decode it fails for the
str tag. -/
theorem execute_many_str_tag_returns_bytes :
    (execute_many mkConn [pingCmd] (some .str) (asciiBytes "$3\r\nfoo\r\n")).result
      = .ok [.bytes (asciiBytes "foo")]
    ∧ (execute mkConn pingCmd (some .str) (asciiBytes "$3\r\nfoo\r\n")).result
      = .ok (.str "foo")
    ∧ (PyValue.bytes (asciiBytes "foo")) ≠ (.str "foo") :=
  ⟨rfl, rfl, fun h => PyValue.noConfusion h⟩

/-- C2 as amended: for every command sequence, tag and reply stream, a
successful execute_many has written all commands as one contiguous buffer
under a single write action, and returns exactly one value per command in
submission order, each reply parsed in raw reader mode (not the mode the
tag would select in execute: the str tag yields bytes rather than text)
and converted with the tag of the call exactly as _read_result does; for
every tag other than str this is the same decoding execute performs. -/
theorem execute_many_single_write_ordered_raw (c : RawConnection)
    (cmds : List (List ArgType)) (tag : ReturnAs) (stream : List Nat)
    (vs : List PyValue)
    (hopen : c.closed = false)
    (hvs : (execute_many c cmds tag stream).result = .ok vs) :
    vs.length = cmds.length
    ∧ (∃ bufs, cmds.mapM (_encode_command c.codec) = .ok bufs
        ∧ (execute_many c cmds tag stream).actions
            = [.acquireLock, .write bufs.flatten, .drain])
    ∧ (∃ rvs, parseSeq c.codec .raw cmds.length stream
          = some (rvs, (execute_many c cmds tag stream).stream)
        ∧ rvs.mapM (readResultConv tag c.expected_ok_msg) = .ok vs)
    ∧ (∀ t : ReturnAs, t ≠ some .str → (_set_reader_encoding c t).mode = .raw) := by
  cases hm : cmds.mapM (_encode_command c.codec) with
  | error e =>
    simp only [execute_many, hm] at hvs
    simp at hvs
  | ok bufs =>
    have hcl : (_set_reader_encoding c Option.none).closed = false := hopen
    have hexec : execute_many c cmds tag stream
        = ⟨(readLoop (_set_reader_encoding c Option.none) tag cmds.length stream).1,
           _set_reader_encoding c Option.none,
           [.acquireLock, .write bufs.flatten, .drain],
           (readLoop (_set_reader_encoding c Option.none) tag cmds.length stream).2⟩ := by
      simp only [execute_many, hm, hcl, Bool.false_eq_true, if_false]
    rw [hexec] at hvs
    have hpair : readLoop (_set_reader_encoding c Option.none) tag cmds.length stream
        = (.ok vs, (readLoop (_set_reader_encoding c Option.none) tag cmds.length stream).2) := by
      rw [← hvs]
    obtain ⟨rvs, hp, hconv, hlen⟩ :=
      readLoop_ok_decomp (_set_reader_encoding c Option.none) tag cmds.length stream vs
        (readLoop (_set_reader_encoding c Option.none) tag cmds.length stream).2 hpair
    refine ⟨hlen, ⟨bufs, rfl, by rw [hexec]⟩, ⟨rvs, ?_, hconv⟩, ?_⟩
    · rw [hexec]
      exact hp
    · intro t ht
      simp [_set_reader_encoding, ht]

/-- C3: the encoder translated from _encode_command produces exactly the
frame the spec describes, argument count header star N CRLF then one
length-prefixed blob per argument in order, with the type-to-bytes table
of the spec; the decimal digit strings really denote their numbers, use
only ASCII digit bytes and carry no leading zero, negative integers carry
a leading minus sign; and the concrete SET foo 123 example of the spec
holds bit-exactly. -/
theorem encoder_matches_spec_frame (codec : Codec) (args : List ArgType)
    (hsup : args.all argSupported = true) :
    _encode_command codec args = .ok (encodeSpec codec args)
    ∧ (∀ n : Nat, digitsVal (natDecimalDigits n) = n)
    ∧ (∀ n : Nat, ∀ b ∈ natDecimalDigits n, 48 ≤ b ∧ b ≤ 57)
    ∧ (∀ n : Nat, n ≠ 0 → (natDecimalDigits n).head? ≠ some 48)
    ∧ (∀ i : Int, i < 0 → intDecimalBytes i = 45 :: natDecimalDigits i.natAbs)
    ∧ (∀ i : Int, 0 ≤ i → intDecimalBytes i = natDecimalDigits i.natAbs)
    ∧ _encode_command utf8Codec [.str "SET", .str "foo", .int 123]
        = .ok (asciiBytes "*3\r\n$3\r\nSET\r\n$3\r\nfoo\r\n$3\r\n123\r\n") := by
  refine ⟨?_, digitsVal_natDecimalDigits, natDecimalDigits_digits,
    natDecimalDigits_no_leading_zero, ?_, ?_, by rfl⟩
  · simp only [_encode_command, encodeArgsLoop_eq_spec codec args hsup]
    have hstar : asciiBytes "*" = [42] := rfl
    simp [encodeSpec, hstar, Except.map]
  · intro i hi
    simp [intDecimalBytes, hi]
  · intro i hi
    simp [intDecimalBytes, not_lt.mpr hi]

/-- C3 witness: the spec frame equation applied to the SET foo 123
example. -/
theorem encoder_matches_spec_frame_witness :
    _encode_command utf8Codec [.str "SET", .str "foo", .int 123]
      = .ok (encodeSpec utf8Codec [.str "SET", .str "foo", .int 123]) :=
  (encoder_matches_spec_frame utf8Codec [.str "SET", .str "foo", .int 123] (by decide)).1

/-- C4: with decode tag ok, an execute whose reply is the status line with
payload s succeeds with the Python value None exactly when s equals the
connection expected status bytes and otherwise raises the unexpected-reply
error carrying the actual bytes; a server-error reply likewise raises the
unexpected-reply error carrying the error line; and the default expected
status is the literal OK. -/
theorem ok_tag_accepts_expected_rejects_rest (c : RawConnection) (s m : List Nat)
    (hs : 13 ∉ s) (hm : 13 ∉ m) (hopen : c.closed = false) :
    (execute c pingCmd (some .ok) (43 :: s ++ CRLF)).result
      = (if s = c.expected_ok_msg then .ok .none
         else .error (.unexpectedReply (.bytes s)))
    ∧ (execute c pingCmd (some .ok) (45 :: m ++ CRLF)).result
      = .error (.unexpectedReply (.error m))
    ∧ default_ok_msg = asciiBytes "OK" := by
  have henc : _encode_command c.codec pingCmd = .ok (asciiBytes "*1\r\n$4\r\nPING\r\n") := rfl
  have hcl : (_set_reader_encoding c (some .ok)).closed = false := hopen
  have hmode : (_set_reader_encoding c (some .ok)).mode = .raw := rfl
  have hcodec : (_set_reader_encoding c (some .ok)).codec = c.codec := rfl
  have hexp : (_set_reader_encoding c (some .ok)).expected_ok_msg = c.expected_ok_msg := rfl
  refine ⟨?_, ?_, rfl⟩
  · have hg := hiGets_status c.codec .raw s hs
    have hrr : _read_result (_set_reader_encoding c (some .ok)) (some .ok) (43 :: s ++ CRLF)
        = (readResultConv (some .ok) c.expected_ok_msg (.bytes s), []) := by
      simp only [_read_result, hcodec, hmode, hg, strOrBytes, hexp]
    simp only [execute, henc, hcl, Bool.false_eq_true, if_false, hrr]
    simp only [readResultConv, eqPyBytes]
    by_cases heq : s = c.expected_ok_msg
    · simp [heq]
    · have hbeq : (s == c.expected_ok_msg) = false := beq_eq_false_iff_ne.mpr heq
      simp [hbeq, heq]
  · have hg := hiGets_error c.codec .raw m hm
    have hrr : _read_result (_set_reader_encoding c (some .ok)) (some .ok) (45 :: m ++ CRLF)
        = (readResultConv (some .ok) c.expected_ok_msg (.error m), []) := by
      simp only [_read_result, hcodec, hmode, hg, hexp]
    simp only [execute, henc, hcl, Bool.false_eq_true, if_false, hrr]
    simp [readResultConv, eqPyBytes]

/-- C4 witness: the ok-tag semantics applied at the default connection to
the replies FOO and ERR x. -/
theorem ok_tag_accepts_expected_rejects_rest_witness :
    (execute mkConn pingCmd (some .ok) (43 :: asciiBytes "FOO" ++ CRLF)).result
      = (if asciiBytes "FOO" = mkConn.expected_ok_msg then .ok .none
         else .error (.unexpectedReply (.bytes (asciiBytes "FOO"))))
    ∧ (execute mkConn pingCmd (some .ok) (45 :: asciiBytes "ERR x" ++ CRLF)).result
      = .error (.unexpectedReply (.error (asciiBytes "ERR x")))
    ∧ default_ok_msg = asciiBytes "OK" :=
  ok_tag_accepts_expected_rejects_rest mkConn (asciiBytes "FOO") (asciiBytes "ERR x")
    (by decide) (by decide) rfl

/-- C5: the default limit is 64 KiB; feeding data to an unpaused reader
with a pausable transport attached pauses the read side exactly when the
buffered byte count exceeds twice the limit; and a successful parse while
paused resumes the read side exactly when the drained buffer is at most
the limit. -/
theorem backpressure_pause_resume :
    _DEFAULT_LIMIT = 65536
    ∧ (∀ (st : RedisStreamReader) (data : List Nat),
        st.transport = true → st.paused = false → st.canPause = true → data ≠ [] →
        ((feed_data st data).paused = true ↔ st.buffer.length + data.length > 2 * st.limit))
    ∧ (∀ (codec : Codec) (mode : ReaderMode) (st : RedisStreamReader) (v : PyValue)
        (st' : RedisStreamReader), st.paused = true →
        read_redis_step codec mode st = .got v st' →
        (st'.paused = false ↔ st'.buffer.length ≤ st.limit)) := by
  refine ⟨rfl, ?_, ?_⟩
  · intro st data ht hp hc hne
    simp only [feed_data, if_neg hne, ht, hp, List.length_append]
    by_cases hgt : st.buffer.length + data.length > 2 * st.limit
    · simp [hgt, hc]
    · simp [hgt, hp]
  · intro codec mode st v st' hp hgot
    cases hg : hiGets codec mode st.buffer with
    | none =>
      simp only [read_redis_step, hg] at hgot
      cases heof : st.eof <;> simp [heof] at hgot
    | some p =>
      obtain ⟨v0, rest⟩ := p
      simp only [read_redis_step, hg] at hgot
      injection hgot with hv hst
      subst hst
      simp only [_maybe_resume_transport, hp]
      by_cases hle : rest.length ≤ st.limit
      · simp [hle]
      · simp [hle, hp]

/-- C5 witness: the pause equivalence at a reader with limit 4 fed a
12-byte chunk, and the resume equivalence at a paused reader whose buffer
drains to empty. -/
theorem backpressure_pause_resume_witness :
    ((feed_data ⟨4, [], false, false, true, true⟩ (asciiBytes "+AAAAAAAAA\r\n")).paused = true
      ↔ ([] : List Nat).length + (asciiBytes "+AAAAAAAAA\r\n").length > 2 * 4)
    ∧ (((⟨4, [], false, false, true, true⟩ : RedisStreamReader)).paused = false
      ↔ ([] : List Nat).length ≤ 4) :=
  ⟨backpressure_pause_resume.2.1 ⟨4, [], false, false, true, true⟩
      (asciiBytes "+AAAAAAAAA\r\n") rfl rfl rfl (by decide),
   backpressure_pause_resume.2.2 utf8Codec .raw
      ⟨4, asciiBytes "+OK\r\n", false, true, true, true⟩
      (.bytes (asciiBytes "OK")) ⟨4, [], false, false, true, true⟩ rfl rfl⟩

/-- C6: at end of stream, when the buffered bytes hold no complete reply
the read fails with the incomplete-read error and the partial parse state
is discarded (the hiredis reader is replaced, so the buffer empties); when
a complete reply is buffered it is still returned. -/
theorem eof_incomplete_discards_buffered_state (codec : Codec) (mode : ReaderMode)
    (st : RedisStreamReader) (heof : st.eof = true) :
    (hiGets codec mode st.buffer = Option.none →
      read_redis_step codec mode st = .eofErr { st with buffer := [] })
    ∧ (∀ v rest, hiGets codec mode st.buffer = some (v, rest) →
      read_redis_step codec mode st
        = .got v (_maybe_resume_transport { st with buffer := rest })) := by
  constructor
  · intro h
    simp [read_redis_step, h, heof]
  · intro v rest h
    simp [read_redis_step, h]

/-- C6 witness: the EOF failure at a reader holding the incomplete bytes
of a status line, and the successful read at a reader holding one complete
reply at EOF. -/
theorem eof_incomplete_discards_buffered_state_witness :
    read_redis_step utf8Codec .raw ⟨65536, asciiBytes "+OK", true, false, true, true⟩
      = .eofErr ⟨65536, [], true, false, true, true⟩
    ∧ read_redis_step utf8Codec .raw ⟨65536, asciiBytes "+OK\r\n", true, false, true, true⟩
      = .got (.bytes (asciiBytes "OK")) ⟨65536, [], true, false, true, true⟩ :=
  ⟨(eof_incomplete_discards_buffered_state utf8Codec .raw
      ⟨65536, asciiBytes "+OK", true, false, true, true⟩ rfl).1 rfl,
   (eof_incomplete_discards_buffered_state utf8Codec .raw
      ⟨65536, asciiBytes "+OK\r\n", true, false, true, true⟩ rfl).2
      (.bytes (asciiBytes "OK")) [] rfl⟩

/-- C7 counterexample: after close, an execute call does not fail
immediately with a dedicated closed-connection error; the connection has
no closed check, so the call acquires the lock, writes the encoded command
to the closed transport (asyncio discards the bytes) and only then fails
at the drain step with the transport connection-lost error.  The action
trace is nonempty, refuting the claim that the call fails before touching
the connection. -/
theorem close_does_not_gate_execute :
    (execute (close mkConn) pingCmd Option.none (asciiBytes "+PONG\r\n")).result
      = .error .connectionLost
    ∧ (execute (close mkConn) pingCmd Option.none (asciiBytes "+PONG\r\n")).actions
      = [.acquireLock, .write (asciiBytes "*1\r\n$4\r\nPING\r\n"), .drain]
    ∧ [WireAction.acquireLock, .write (asciiBytes "*1\r\n$4\r\nPING\r\n"), .drain]
      ≠ ([] : List WireAction) :=
  ⟨rfl, rfl, by decide⟩

/-- C7 as amended: after close has completed, every subsequent execute or
execute_many call with encodable arguments fails before reading any reply,
but not immediately and not through a dedicated closed-connection check:
the encoded buffer is still written to the closed transport and the
failure is the connection-lost error of the drain step, with the reply
stream left untouched. -/
theorem execute_after_close_fails_at_drain (c : RawConnection) (args : List ArgType)
    (cmds : List (List ArgType)) (tag : ReturnAs) (stream : List Nat)
    (buf : List Nat) (bufs : List (List Nat))
    (hclosed : c.closed = true)
    (henc : _encode_command c.codec args = .ok buf)
    (hencs : cmds.mapM (_encode_command c.codec) = .ok bufs) :
    execute c args tag stream
      = ⟨.error .connectionLost, _set_reader_encoding c tag,
         [.acquireLock, .write buf, .drain], stream⟩
    ∧ execute_many c cmds tag stream
      = ⟨.error .connectionLost, _set_reader_encoding c Option.none,
         [.acquireLock, .write bufs.flatten, .drain], stream⟩ := by
  have h1 : (_set_reader_encoding c tag).closed = true := hclosed
  have h2 : (_set_reader_encoding c Option.none).closed = true := hclosed
  constructor
  · simp only [execute, henc, h1, if_true]
  · simp only [execute_many, hencs, h2, if_true]

/-- C7 witness: the post-close failure shape applied at the default
connection. -/
theorem execute_after_close_fails_at_drain_witness :
    execute (close mkConn) pingCmd Option.none (asciiBytes "+PONG\r\n")
      = ⟨.error .connectionLost, _set_reader_encoding (close mkConn) Option.none,
         [.acquireLock, .write (asciiBytes "*1\r\n$4\r\nPING\r\n"), .drain],
         asciiBytes "+PONG\r\n"⟩
    ∧ execute_many (close mkConn) [pingCmd] Option.none (asciiBytes "+PONG\r\n")
      = ⟨.error .connectionLost, _set_reader_encoding (close mkConn) Option.none,
         [.acquireLock, .write ([asciiBytes "*1\r\n$4\r\nPING\r\n"]).flatten, .drain],
         asciiBytes "+PONG\r\n"⟩ :=
  execute_after_close_fails_at_drain (close mkConn) pingCmd [pingCmd] Option.none
    (asciiBytes "+PONG\r\n") (asciiBytes "*1\r\n$4\r\nPING\r\n")
    [asciiBytes "*1\r\n$4\r\nPING\r\n"] rfl rfl rfl

/-- C8: encoding raises exactly when some argument is of an unsupported
kind, and the error raised for the first unsupported argument is the
TypeError carrying the repr of the offending value and its type name. -/
theorem encode_error_iff_unsupported (codec : Codec) (args : List ArgType) :
    ((∃ e, _encode_command codec args = .error e) ↔ ¬ (args.all argSupported = true))
    ∧ (∀ (pre : List ArgType) (r t : String) (post : List ArgType),
        pre.all argSupported = true → args = pre ++ .other r t :: post →
        _encode_command codec args = .error (.typeError r t)) := by
  constructor
  · constructor
    · rintro ⟨e, he⟩ hall
      rw [show _encode_command codec args = (encodeArgsLoop codec args).map
          (fun body => 42 :: natDecimalDigits args.length ++ CRLF ++ body) from rfl,
        encodeArgsLoop_eq_spec codec args hall] at he
      simp [Except.map] at he
    · intro hnall
      have hfalse : args.all argSupported = false := by
        cases h : args.all argSupported
        · rfl
        · exact absurd h hnall
      obtain ⟨e, he⟩ := encodeArgsLoop_error_unsupported codec args hfalse
      refine ⟨e, ?_⟩
      simp only [_encode_command, he]
      rfl
  · intro pre r t post hpre heq
    subst heq
    simp only [_encode_command, encodeArgsLoop_error_first codec pre r t post hpre]
    rfl

/-- C8 witness: the first-unsupported error shape applied to a list whose
second argument is an unsupported value of class list. -/
theorem encode_error_iff_unsupported_witness :
    _encode_command utf8Codec [ArgType.int 1, ArgType.other "[1]" "list"]
      = .error (.typeError "[1]" "list") :=
  (encode_error_iff_unsupported utf8Codec [ArgType.int 1, ArgType.other "[1]" "list"]).2
    [ArgType.int 1] "[1]" "list" [] (by decide) rfl

/-- C9: when encoding fails, execute raises the encoding error before the
lock is acquired and before any transport interaction: the connection
state (including the installed reader) is returned exactly as it was, the
action trace is empty and the reply stream is untouched. -/
theorem encode_failure_leaves_connection_untouched (c : RawConnection)
    (args : List ArgType) (tag : ReturnAs) (stream : List Nat) (e : Err)
    (h : _encode_command c.codec args = .error e) :
    execute c args tag stream = ⟨.error e, c, [], stream⟩ := by
  simp only [execute, h]

/-- C9 witness: the untouched-state shape applied at the default
connection to an argument list holding an unsupported value. -/
theorem encode_failure_leaves_connection_untouched_witness :
    execute mkConn [ArgType.other "[1]" "list"] Option.none (asciiBytes "+OK\r\n")
      = ⟨.error (.typeError "[1]" "list"), mkConn, [], asciiBytes "+OK\r\n"⟩ :=
  encode_failure_leaves_connection_untouched mkConn [ArgType.other "[1]" "list"]
    Option.none (asciiBytes "+OK\r\n") (.typeError "[1]" "list") rfl

/-- C10: flushing an empty pipeline performs no transport interaction and
returns the empty list; and when the underlying execute_many call raises,
the raised error propagates and the recorded command list is left exactly
as it was, so a later flush would retransmit the same commands. -/
theorem pipeline_retains_commands_on_failure (c : RawConnection)
    (p : CommandsPipeline) (tag : ReturnAs) (stream : List Nat) :
    (p.pipeline = [] → pipeline_execute c p tag stream = ⟨.ok [], p, [], stream⟩)
    ∧ (∀ e, p.pipeline ≠ [] →
        (execute_many c p.pipeline tag stream).result = .error e →
        (pipeline_execute c p tag stream).result = .error e
        ∧ (pipeline_execute c p tag stream).pipe = p) := by
  constructor
  · intro h
    simp [pipeline_execute, h]
  · intro e hne herr
    simp only [pipeline_execute, if_neg hne, herr]
    exact ⟨trivial, trivial⟩

/-- C10 witness: the empty-flush shape, and the unchanged-commands shape
at a closed connection where execute_many raises the connection-lost
error. -/
theorem pipeline_retains_commands_on_failure_witness :
    pipeline_execute mkConn ⟨[]⟩ Option.none [] = ⟨.ok [], ⟨[]⟩, [], []⟩
    ∧ ((pipeline_execute (close mkConn) ⟨[pingCmd]⟩ Option.none []).result
        = .error .connectionLost
      ∧ (pipeline_execute (close mkConn) ⟨[pingCmd]⟩ Option.none []).pipe = ⟨[pingCmd]⟩) :=
  ⟨(pipeline_retains_commands_on_failure mkConn ⟨[]⟩ Option.none []).1 rfl,
   (pipeline_retains_commands_on_failure (close mkConn) ⟨[pingCmd]⟩ Option.none []).2
      .connectionLost (by simp) rfl⟩

/-- C2 witness for the amended claim: the single-write and ordered-result
shape applied at the default connection to one PING command against one
PONG reply. -/
theorem execute_many_single_write_ordered_raw_witness :
    ([PyValue.bytes (asciiBytes "PONG")]).length = ([pingCmd]).length
    ∧ (∃ bufs, ([pingCmd]).mapM (_encode_command mkConn.codec) = .ok bufs
        ∧ (execute_many mkConn [pingCmd] Option.none (asciiBytes "+PONG\r\n")).actions
            = [.acquireLock, .write bufs.flatten, .drain]) :=
  ⟨(execute_many_single_write_ordered_raw mkConn [pingCmd] Option.none
      (asciiBytes "+PONG\r\n") [PyValue.bytes (asciiBytes "PONG")] rfl rfl).1,
   (execute_many_single_write_ordered_raw mkConn [pingCmd] Option.none
      (asciiBytes "+PONG\r\n") [PyValue.bytes (asciiBytes "PONG")] rfl rfl).2.1⟩

end AsyncRedis
